import Mathlib

/-!
Verification of the kevi encrypted-vault engine against its specification.

The Rust sources are shallowly embedded: byte strings become `List Nat`
(each element a byte value), fallible functions return `Except`, machine
integers are `Nat` reduced modulo two to the thirty-second power where the
code reads or writes four little-endian bytes.  External cryptographic
primitives (the argon2 and ring crates) are modelled ideally, as explained
at each definition.
-/

namespace Kevi

/-- Little-endian serialization of a 16-bit value, as `u16::to_le_bytes`. -/
def le16 (n : Nat) : List Nat :=
  [n % 256, n / 256 % 256]

/-- Little-endian serialization of a 32-bit value, as `u32::to_le_bytes`. -/
def le32 (n : Nat) : List Nat :=
  [n % 256, n / 256 % 256, n / 65536 % 256, n / 16777216 % 256]

/-- `u16::from_le_bytes` on two bytes. -/
def fromLe16 (b0 b1 : Nat) : Nat := b0 + 256 * b1

/-- `u32::from_le_bytes` on four bytes. -/
def fromLe32 (b0 b1 b2 b3 : Nat) : Nat :=
  b0 + 256 * b1 + 65536 * b2 + 16777216 * b3

/-- The magic bytes b"KEVI" (`HEADER_MAGIC` in core/crypto.rs). -/
def headerMagic : List Nat := [75, 69, 86, 73]

/-- `HEADER_VERSION` in core/crypto.rs. -/
def headerVersion : Nat := 1

/-- `KDF_ARGON2ID` in core/crypto.rs. -/
def kdfArgon2id : Nat := 2

/-- `AEAD_AES256GCM` in core/crypto.rs. -/
def aeadAes256Gcm : Nat := 1

/-- `KeviHeader` from core/crypto.rs: the parsed fixed-layout preamble. -/
structure KeviHeader where
  version : Nat
  kdf_id : Nat
  aead_id : Nat
  m_cost_kib : Nat
  t_cost : Nat
  p_lanes : Nat
  salt : List Nat
  nonce : List Nat
deriving DecidableEq, Repr

/-- `HeaderError` from core/crypto.rs. -/
inductive HeaderError where
  | TooShort
  | InvalidMagic
  | UnsupportedVersion (v : Nat)
  | UnsupportedKdf (k : Nat)
  | UnsupportedAead (a : Nat)
deriving DecidableEq, Repr

/-- `parse_kevi_header` from core/crypto.rs.  `min_len` there is
4 + 2 + 1 + 1 + 12 + 16 + 12 = 48; field offsets are 4 (version),
6 (kdf), 7 (aead), 8/12/16 (params), 20 (salt), 36 (nonce); the returned
ciphertext offset is 48. -/
def parse_kevi_header (data : List Nat) :
    Except HeaderError (KeviHeader × Nat) :=
  if data.length < 48 then .error .TooShort
  else if data.take 4 ≠ headerMagic then .error .InvalidMagic
  else if fromLe16 (data.getD 4 0) (data.getD 5 0) ≠ headerVersion then
    .error (.UnsupportedVersion (fromLe16 (data.getD 4 0) (data.getD 5 0)))
  else if data.getD 6 0 ≠ kdfArgon2id then
    .error (.UnsupportedKdf (data.getD 6 0))
  else if data.getD 7 0 ≠ aeadAes256Gcm then
    .error (.UnsupportedAead (data.getD 7 0))
  else
    .ok ({ version := fromLe16 (data.getD 4 0) (data.getD 5 0)
           kdf_id := data.getD 6 0
           aead_id := data.getD 7 0
           m_cost_kib := fromLe32 (data.getD 8 0) (data.getD 9 0)
               (data.getD 10 0) (data.getD 11 0)
           t_cost := fromLe32 (data.getD 12 0) (data.getD 13 0)
               (data.getD 14 0) (data.getD 15 0)
           p_lanes := fromLe32 (data.getD 16 0) (data.getD 17 0)
               (data.getD 18 0) (data.getD 19 0)
           salt := (data.drop 20).take 16
           nonce := (data.drop 36).take 12 }, 48)

/-- `build_header` from core/crypto.rs: emission of the 48-byte preamble. -/
def build_header (salt nonce : List Nat) (m_cost_kib t_cost p : Nat) :
    List Nat :=
  headerMagic ++ le16 headerVersion ++ [kdfArgon2id, aeadAes256Gcm] ++
    le32 m_cost_kib ++ le32 t_cost ++ le32 p ++ salt ++ nonce

/-- `default_params` from core/crypto.rs: 64 MiB, 3 iterations, 1 lane. -/
def default_params : Nat × Nat × Nat := (65536, 3, 1)

/-- Error kinds of the engine (the code uses `anyhow` with distinct
messages; each distinct failure mode becomes one constructor). -/
inductive VErr where
  | header (e : HeaderError)
  | invalidParams
  | invalidNonce
  | decryptionFailed
  | unsupportedFormat
  | decodeError
  | ioError
deriving DecidableEq, Repr

/-- A derived symmetric key.  The external argon2 crate is modelled as an
ideal key-derivation function: the key is represented by its derivation
inputs, so two derivations agree exactly when all inputs agree.  The real
KDF guarantees this only computationally. -/
structure Key where
  password : String
  salt : List Nat
  m_cost_kib : Nat
  t_cost : Nat
  p_lanes : Nat
deriving DecidableEq, Repr

/-- `derive_key_argon2id` from core/crypto.rs.  `Params::new` of the
argon2 crate rejects zero iterations, zero lanes and memory below the
minimum of 8 KiB before any derivation work; the derivation itself is the
ideal KDF above. -/
def derive_key_argon2id (password : String) (salt : List Nat)
    (m_cost_kib t_cost p : Nat) : Except VErr Key :=
  if 8 ≤ m_cost_kib ∧ 1 ≤ t_cost ∧ 1 ≤ p then
    .ok ⟨password, salt, m_cost_kib, t_cost, p⟩
  else .error .invalidParams

/-- The output of the ideal AEAD seal operation (ring, AES-256-GCM).  A
sealed box remembers the key, nonce and associated data it was sealed
with; opening succeeds exactly when all three match.  The real AEAD
guarantees this only computationally (authentication can fail to detect a
forgery with negligible probability). -/
structure SealedBox where
  key : Key
  nonce : List Nat
  aad : List Nat
  plaintext : String
deriving DecidableEq, Repr

/-- The header fields as written by `encrypt_vault_with_key`. -/
structure VaultHeaderData where
  m_cost_kib : Nat
  t_cost : Nat
  p_lanes : Nat
  salt : List Nat
  nonce : List Nat
deriving DecidableEq, Repr

/-- Content of the vault file.  `plain` is an arbitrary byte string (a
file not produced by the engine); `vault` is the output of the engine:
a 48-byte header followed by the AEAD ciphertext and tag, whose bytes are
opaque in the ideal AEAD model (only their count matters). -/
inductive Stored where
  | plain (bytes : List Nat)
  | vault (hd : VaultHeaderData) (box : SealedBox)
deriving DecidableEq, Repr

/-- The byte string a `Stored` value denotes on disk.  Ciphertext and tag
bytes are opaque in the symbolic model and rendered as zeros; the tag is
16 bytes (`AES_256_GCM.tag_len`). -/
def storedBytes : Stored → List Nat
  | .plain bs => bs
  | .vault hd box =>
      build_header hd.salt hd.nonce hd.m_cost_kib hd.t_cost hd.p_lanes ++
        List.replicate (box.plaintext.length + 16) 0

/-- `encrypt_vault_with_key` from core/crypto.rs.  The fresh nonce the
code draws from `SystemRandom` is passed as the `nonce` argument. -/
def encrypt_vault_with_key (data : String) (m_cost_kib t_cost p_lanes : Nat)
    (salt : List Nat) (derived_key : Key) (nonce : List Nat) : Stored :=
  .vault ⟨m_cost_kib, t_cost, p_lanes, salt, nonce⟩
    ⟨derived_key, nonce, build_header salt nonce m_cost_kib t_cost p_lanes,
      data⟩

/-- `decrypt_vault_with_key` from core/crypto.rs: parse the header, read
the nonce back out of bytes 36..48, use the full header as associated
data, and open the ciphertext.  Any authentication failure is the single
`decryptionFailed` error. -/
def decrypt_vault_with_key (s : Stored) (derived_key : Key) :
    Except VErr String :=
  match parse_kevi_header (storedBytes s) with
  | .error e => .error (.header e)
  | .ok (_, off) =>
    let bytes := storedBytes s
    let nonceBytes := (bytes.drop (off - 12)).take 12
    if nonceBytes.length ≠ 12 then .error .invalidNonce
    else
      let aad := bytes.take off
      match s with
      | .plain _ => .error .decryptionFailed
      | .vault _ box =>
        if box.key = derived_key ∧ box.nonce = nonceBytes ∧ box.aad = aad
        then .ok box.plaintext
        else .error .decryptionFailed

/-- `encrypt_vault` from core/crypto.rs: derive under default parameters
with a fresh salt (passed as argument, modelling the CSPRNG draw), then
delegate to the key-based path with a fresh nonce. -/
def encrypt_vault (data : String) (password : String)
    (salt nonce : List Nat) : Except VErr Stored :=
  match derive_key_argon2id password salt 65536 3 1 with
  | .error e => .error e
  | .ok k => .ok (encrypt_vault_with_key data 65536 3 1 salt k nonce)

/-- `decrypt_vault` from core/crypto.rs: parse the header, derive the key
under the parameters and salt read from the header, then delegate. -/
def decrypt_vault (s : Stored) (password : String) : Except VErr String :=
  match parse_kevi_header (storedBytes s) with
  | .error e => .error (.header e)
  | .ok (hdr, _) =>
    match derive_key_argon2id password hdr.salt hdr.m_cost_kib hdr.t_cost
        hdr.p_lanes with
    | .error e => .error e
    | .ok k => decrypt_vault_with_key s k

theorem fromLe32_le32 (n : Nat) :
    fromLe32 (n % 256) (n / 256 % 256) (n / 65536 % 256)
      (n / 16777216 % 256) = n % 4294967296 := by
  unfold fromLe32
  omega

/-- Parsing any byte string that begins with an emitted header recovers
the header fields (parameters reduced modulo 2^32). -/
theorem parse_build_header (salt nonce extra : List Nat) (m t p : Nat)
    (hs : salt.length = 16) (hn : nonce.length = 12) :
    parse_kevi_header (build_header salt nonce m t p ++ extra) =
      .ok (⟨1, 2, 1, m % 4294967296, t % 4294967296, p % 4294967296,
            salt, nonce⟩, 48) := by
  have hlen : (build_header salt nonce m t p ++ extra).length =
      48 + extra.length := by
    simp [build_header, headerMagic, le16, le32, hs, hn]
    omega
  unfold parse_kevi_header
  rw [if_neg (by omega)]
  have hexp : build_header salt nonce m t p ++ extra =
      75 :: 69 :: 86 :: 73 :: 1 :: 0 :: 2 :: 1 ::
      (m % 256) :: (m / 256 % 256) :: (m / 65536 % 256) ::
      (m / 16777216 % 256) ::
      (t % 256) :: (t / 256 % 256) :: (t / 65536 % 256) ::
      (t / 16777216 % 256) ::
      (p % 256) :: (p / 256 % 256) :: (p / 65536 % 256) ::
      (p / 16777216 % 256) :: (salt ++ (nonce ++ extra)) := by
    simp [build_header, headerMagic, le16, le32, headerVersion,
      kdfArgon2id, aeadAes256Gcm]
  rw [hexp]
  have hsalt : ((salt ++ (nonce ++ extra)).take 16) = salt := by
    rw [← hs]
    exact List.take_left salt (nonce ++ extra)
  have hnonce : (salt ++ (nonce ++ extra)).drop 16 = nonce ++ extra := by
    rw [← hs]
    exact List.drop_left salt (nonce ++ extra)
  have hnonce2 : ((nonce ++ extra).take 12) = nonce := by
    rw [← hn]
    exact List.take_left nonce extra
  simp [headerMagic, fromLe16, fromLe32, headerVersion, kdfArgon2id,
    aeadAes256Gcm, List.getD, hsalt, hnonce, hnonce2]
  omega

/-- The byte string of an engine-written vault file, in explicit form. -/
theorem storedBytes_vault (hd : VaultHeaderData) (box : SealedBox) :
    storedBytes (.vault hd box) =
      build_header hd.salt hd.nonce hd.m_cost_kib hd.t_cost hd.p_lanes ++
        List.replicate (box.plaintext.length + 16) 0 := rfl

theorem build_header_length (salt nonce : List Nat) (m t p : Nat)
    (hs : salt.length = 16) (hn : nonce.length = 12) :
    (build_header salt nonce m t p).length = 48 := by
  simp [build_header, headerMagic, le16, le32, hs, hn]


/-- Explicit cons form of an emitted header followed by further bytes. -/
theorem build_header_cons (salt nonce rest : List Nat) (m t p : Nat) :
    build_header salt nonce m t p ++ rest =
      75 :: 69 :: 86 :: 73 :: 1 :: 0 :: 2 :: 1 ::
      (m % 256) :: (m / 256 % 256) :: (m / 65536 % 256) ::
      (m / 16777216 % 256) ::
      (t % 256) :: (t / 256 % 256) :: (t / 65536 % 256) ::
      (t / 16777216 % 256) ::
      (p % 256) :: (p / 256 % 256) :: (p / 65536 % 256) ::
      (p / 16777216 % 256) :: (salt ++ (nonce ++ rest)) := by
  simp [build_header, headerMagic, le16, le32, headerVersion,
    kdfArgon2id, aeadAes256Gcm]

/-- Bytes 36 and onward of an engine-written file are the nonce followed
by the opaque ciphertext bytes. -/
theorem storedBytes_vault_drop36 (hd : VaultHeaderData) (box : SealedBox)
    (hs : hd.salt.length = 16) :
    (storedBytes (.vault hd box)).drop 36 =
      hd.nonce ++ List.replicate (box.plaintext.length + 16) 0 := by
  rw [storedBytes_vault, build_header_cons]
  show (hd.salt ++ (hd.nonce ++ _)).drop 16 = _
  rw [← hs]
  exact List.drop_left hd.salt _

/-- The nonce slice read back by `decrypt_vault_with_key`. -/
theorem storedBytes_vault_nonce (hd : VaultHeaderData) (box : SealedBox)
    (hs : hd.salt.length = 16) (hn : hd.nonce.length = 12) :
    ((storedBytes (.vault hd box)).drop 36).take 12 = hd.nonce := by
  rw [storedBytes_vault_drop36 hd box hs, ← hn]
  exact List.take_left hd.nonce _

/-- The first 48 bytes of an engine-written file are exactly its header. -/
theorem storedBytes_vault_take48 (hd : VaultHeaderData) (box : SealedBox)
    (hs : hd.salt.length = 16) (hn : hd.nonce.length = 12) :
    (storedBytes (.vault hd box)).take 48 =
      build_header hd.salt hd.nonce hd.m_cost_kib hd.t_cost hd.p_lanes := by
  rw [storedBytes_vault,
    ← build_header_length hd.salt hd.nonce hd.m_cost_kib hd.t_cost
      hd.p_lanes hs hn]
  exact List.take_left _ _

/-- Parsing an engine-written file succeeds and recovers the header. -/
theorem parse_storedBytes_vault (hd : VaultHeaderData) (box : SealedBox)
    (hs : hd.salt.length = 16) (hn : hd.nonce.length = 12) :
    parse_kevi_header (storedBytes (.vault hd box)) =
      .ok (⟨1, 2, 1, hd.m_cost_kib % 4294967296, hd.t_cost % 4294967296,
        hd.p_lanes % 4294967296, hd.salt, hd.nonce⟩, 48) := by
  rw [storedBytes_vault]
  exact parse_build_header hd.salt hd.nonce _ _ _ _ hs hn

/-- Characterization of `decrypt_vault_with_key` on engine-written files:
it opens the sealed box against the key, the header nonce and the header
bytes as associated data. -/
theorem decrypt_with_key_vault (hd : VaultHeaderData) (box : SealedBox)
    (k : Key) (hs : hd.salt.length = 16) (hn : hd.nonce.length = 12) :
    decrypt_vault_with_key (.vault hd box) k =
      if box.key = k ∧ box.nonce = hd.nonce ∧
          box.aad = build_header hd.salt hd.nonce hd.m_cost_kib hd.t_cost
            hd.p_lanes
      then .ok box.plaintext else .error .decryptionFailed := by
  unfold decrypt_vault_with_key
  rw [parse_storedBytes_vault hd box hs hn]
  simp only [storedBytes_vault_nonce hd box hs hn,
    storedBytes_vault_take48 hd box hs hn, hn]
  simp

/-- Decrypting the output of `encrypt_vault_with_key` under the sealing
key recovers the plaintext. -/
theorem decrypt_encrypt_with_key (data : String) (m t p : Nat)
    (salt nonce : List Nat) (k : Key)
    (hs : salt.length = 16) (hn : nonce.length = 12) :
    decrypt_vault_with_key (encrypt_vault_with_key data m t p salt k nonce)
      k = .ok data := by
  show decrypt_vault_with_key
    (.vault ⟨m, t, p, salt, nonce⟩
      ⟨k, nonce, build_header salt nonce m t p, data⟩) k = .ok data
  rw [decrypt_with_key_vault _ _ _ hs hn]
  simp

/-- Characterization of `decrypt_vault` on engine-written files: derive
under the header parameters and salt, then open. -/
theorem decrypt_vault_vault (hd : VaultHeaderData) (box : SealedBox)
    (pw : String) (hs : hd.salt.length = 16) (hn : hd.nonce.length = 12) :
    decrypt_vault (.vault hd box) pw =
      match derive_key_argon2id pw hd.salt (hd.m_cost_kib % 4294967296)
          (hd.t_cost % 4294967296) (hd.p_lanes % 4294967296) with
      | .error e => .error e
      | .ok k => decrypt_vault_with_key (.vault hd box) k := by
  unfold decrypt_vault
  rw [parse_storedBytes_vault hd box hs hn]

/-- Claim C2: for every plaintext and every pair of distinct passphrases,
decrypting an encryption made under one passphrase with the other fails
with the single opaque decryption-failed error (never the unsupported
format error, a header error, or a decode error); and a file whose header
nonce has been tampered with fails, under the correct passphrase, with the
very same error value, so wrong key and tampered ciphertext are
indistinguishable to the caller. -/
theorem wrong_passphrase_and_tamper_fail_uniformly
    (x pw pw2 : String) (salt nonce nonce2 : List Nat)
    (hp : pw ≠ pw2) (hs : salt.length = 16) (hn : nonce.length = 12)
    (hn2 : nonce2.length = 12) (hne : nonce2 ≠ nonce) :
    encrypt_vault x pw salt nonce =
      .ok (encrypt_vault_with_key x 65536 3 1 salt
        ⟨pw, salt, 65536, 3, 1⟩ nonce)
    ∧ decrypt_vault (encrypt_vault_with_key x 65536 3 1 salt
        ⟨pw, salt, 65536, 3, 1⟩ nonce) pw2 = .error .decryptionFailed
    ∧ decrypt_vault (.vault ⟨65536, 3, 1, salt, nonce2⟩
        ⟨⟨pw, salt, 65536, 3, 1⟩, nonce,
          build_header salt nonce 65536 3 1, x⟩) pw
        = .error .decryptionFailed := by
  refine ⟨?_, ?_, ?_⟩
  · unfold encrypt_vault derive_key_argon2id
    norm_num
  · show decrypt_vault (.vault ⟨65536, 3, 1, salt, nonce⟩
      ⟨⟨pw, salt, 65536, 3, 1⟩, nonce,
        build_header salt nonce 65536 3 1, x⟩) pw2 = _
    rw [decrypt_vault_vault _ _ _ hs hn]
    have hd : derive_key_argon2id pw2 salt (65536 % 4294967296)
        (3 % 4294967296) (1 % 4294967296) =
        .ok ⟨pw2, salt, 65536, 3, 1⟩ := by
      unfold derive_key_argon2id
      norm_num
    rw [hd]
    show decrypt_vault_with_key (.vault ⟨65536, 3, 1, salt, nonce⟩
      ⟨⟨pw, salt, 65536, 3, 1⟩, nonce,
        build_header salt nonce 65536 3 1, x⟩)
      ⟨pw2, salt, 65536, 3, 1⟩ = _
    rw [decrypt_with_key_vault _ _ _ hs hn]
    rw [if_neg]
    intro hcond
    exact hp (congrArg Key.password hcond.1)
  · rw [decrypt_vault_vault _ _ _ hs hn2]
    have hd : derive_key_argon2id pw salt (65536 % 4294967296)
        (3 % 4294967296) (1 % 4294967296) =
        .ok ⟨pw, salt, 65536, 3, 1⟩ := by
      unfold derive_key_argon2id
      norm_num
    rw [hd]
    show decrypt_vault_with_key (.vault ⟨65536, 3, 1, salt, nonce2⟩
      ⟨⟨pw, salt, 65536, 3, 1⟩, nonce,
        build_header salt nonce 65536 3 1, x⟩)
      ⟨pw, salt, 65536, 3, 1⟩ = _
    rw [decrypt_with_key_vault _ _ _ hs hn2]
    rw [if_neg]
    intro hcond
    exact hne (hcond.2.1.symm)

/-- Witness for the previous theorem at concrete inputs. -/
theorem wrong_passphrase_and_tamper_fail_uniformly_check :
    decrypt_vault (encrypt_vault_with_key ("secret") 65536 3 1
        (List.replicate 16 7)
        ⟨("a"), List.replicate 16 7, 65536, 3, 1⟩ (List.replicate 12 5))
      ("b") = .error .decryptionFailed := by
  have h := wrong_passphrase_and_tamper_fail_uniformly ("secret") ("a")
    ("b") (List.replicate 16 7) (List.replicate 12 5)
    (List.replicate 12 6) (by decide) (by decide) (by decide) (by decide)
    (by decide)
  exact h.2.1

/-- Claim C5: `parse_kevi_header` is a total function (the embedding is a
terminating Lean function, so it returns a value on every byte sequence
and cannot panic) and classifies its input in this order: too-short for
fewer than 48 bytes, invalid magic when the first four bytes are not KEVI,
unsupported version for any version word other than 1, unsupported kdf
for any kdf byte other than 2, unsupported aead for any aead byte other
than 1, and otherwise a parsed header with ciphertext offset 48. -/
theorem parse_kevi_header_total_spec (data : List Nat) :
    (data.length < 48 → parse_kevi_header data = .error .TooShort)
    ∧ (48 ≤ data.length → data.take 4 ≠ headerMagic →
        parse_kevi_header data = .error .InvalidMagic)
    ∧ (48 ≤ data.length → data.take 4 = headerMagic →
        fromLe16 (data.getD 4 0) (data.getD 5 0) ≠ 1 →
        parse_kevi_header data =
          .error (.UnsupportedVersion (fromLe16 (data.getD 4 0)
            (data.getD 5 0))))
    ∧ (48 ≤ data.length → data.take 4 = headerMagic →
        fromLe16 (data.getD 4 0) (data.getD 5 0) = 1 →
        data.getD 6 0 ≠ 2 →
        parse_kevi_header data = .error (.UnsupportedKdf (data.getD 6 0)))
    ∧ (48 ≤ data.length → data.take 4 = headerMagic →
        fromLe16 (data.getD 4 0) (data.getD 5 0) = 1 →
        data.getD 6 0 = 2 → data.getD 7 0 ≠ 1 →
        parse_kevi_header data = .error (.UnsupportedAead (data.getD 7 0)))
    ∧ (48 ≤ data.length → data.take 4 = headerMagic →
        fromLe16 (data.getD 4 0) (data.getD 5 0) = 1 →
        data.getD 6 0 = 2 → data.getD 7 0 = 1 →
        parse_kevi_header data =
          .ok (⟨1, 2, 1,
            fromLe32 (data.getD 8 0) (data.getD 9 0) (data.getD 10 0)
              (data.getD 11 0),
            fromLe32 (data.getD 12 0) (data.getD 13 0) (data.getD 14 0)
              (data.getD 15 0),
            fromLe32 (data.getD 16 0) (data.getD 17 0) (data.getD 18 0)
              (data.getD 19 0),
            (data.drop 20).take 16, (data.drop 36).take 12⟩, 48)) := by
  refine ⟨?_, ?_, ?_, ?_, ?_, ?_⟩
  · intro h
    unfold parse_kevi_header
    rw [if_pos h]
  · intro h1 h2
    unfold parse_kevi_header
    rw [if_neg (Nat.not_lt.mpr h1), if_pos h2]
  · intro h1 h2 h3
    unfold parse_kevi_header
    simp only [headerVersion, kdfArgon2id, aeadAes256Gcm]
    rw [if_neg (Nat.not_lt.mpr h1), if_neg (not_not_intro h2), if_pos h3]
  · intro h1 h2 h3 h4
    unfold parse_kevi_header
    simp only [headerVersion, kdfArgon2id, aeadAes256Gcm]
    rw [if_neg (Nat.not_lt.mpr h1), if_neg (not_not_intro h2),
      if_neg (not_not_intro h3), if_pos h4]
  · intro h1 h2 h3 h4 h5
    unfold parse_kevi_header
    simp only [headerVersion, kdfArgon2id, aeadAes256Gcm]
    rw [if_neg (Nat.not_lt.mpr h1), if_neg (not_not_intro h2),
      if_neg (not_not_intro h3), if_neg (not_not_intro h4), if_pos h5]
  · intro h1 h2 h3 h4 h5
    unfold parse_kevi_header
    simp only [headerVersion, kdfArgon2id, aeadAes256Gcm]
    rw [if_neg (Nat.not_lt.mpr h1), if_neg (not_not_intro h2),
      if_neg (not_not_intro h3), if_neg (not_not_intro h4),
      if_neg (not_not_intro h5)]
    rw [h3, h4, h5]

/-- Witness for the parser specification at concrete inputs: the empty
input is too short, and a 48-byte input with a bad magic is rejected as
invalid magic, never as a panic. -/
theorem parse_kevi_header_total_spec_check :
    parse_kevi_header [] = .error .TooShort
    ∧ parse_kevi_header (List.replicate 48 0) = .error .InvalidMagic := by
  refine ⟨(parse_kevi_header_total_spec []).1 (by decide),
    (parse_kevi_header_total_spec (List.replicate 48 0)).2.1 (by decide)
      (by decide)⟩

/-- `VaultEntry` from core/entry.rs.  `SecretString` fields expose their
inner string to serde (the custom `secret_string` serializers render and
read them as plain strings), so they are plain strings in the model. -/
structure VaultEntry where
  label : String
  username : Option String
  password : String
  notes : Option String
deriving DecidableEq, Repr

/-- RON string escaping as performed by the ron serializer on the two
characters that must be escaped, backslash and double quote.  (The model
restricts escaping to these two; the ron crate additionally escapes some
control characters, which round-trip the same way.) -/
def escapeChars : List Char → List Char
  | [] => []
  | c :: rest =>
    if c = '\\' ∨ c = '"' then '\\' :: c :: escapeChars rest
    else c :: escapeChars rest

/-- A RON string literal: quote, escaped characters, quote. -/
def printString (s : String) : List Char :=
  '"' :: (escapeChars s.data ++ ['"'])

/-- A RON optional value: `None` or `Some(...)` around a string. -/
def printOptString : Option String → List Char
  | none => ['N', 'o', 'n', 'e']
  | some s => ['S', 'o', 'm', 'e', '('] ++ printString s ++ [')']

/-- Decimal digits of a number, most significant first, accumulated from
the least significant end.  Structurally recursive on a fuel bound so the
kernel can evaluate it. -/
def natCharsAux : Nat → Nat → List Char → List Char
  | 0, _, acc => acc
  | fuel + 1, n, acc =>
    if n < 10 then Nat.digitChar n :: acc
    else natCharsAux fuel (n / 10) (Nat.digitChar (n % 10) :: acc)

/-- Decimal digits of a number, most significant first. -/
def natChars (n : Nat) : List Char := natCharsAux (n + 1) n []

/-- Four-space indentation of array items (ron pretty, depth 1). -/
def itemIndent : List Char := [' ', ' ', ' ', ' ']

/-- Eight-space indentation of struct fields (ron pretty, depth 2). -/
def fieldIndent : List Char := [' ', ' ', ' ', ' ', ' ', ' ', ' ', ' ']

def kwLabel : List Char := ['l', 'a', 'b', 'e', 'l']

def kwUsername : List Char := ['u', 's', 'e', 'r', 'n', 'a', 'm', 'e']

def kwPassword : List Char := ['p', 'a', 's', 's', 'w', 'o', 'r', 'd']

def kwNotes : List Char := ['n', 'o', 't', 'e', 's']

def kwNone : List Char := ['N', 'o', 'n', 'e']

def kwSomeOpen : List Char := ['S', 'o', 'm', 'e', '(']

def commaNl : List Char := [',', '\n']

/-- The struct fields of one record as the ron pretty serializer emits
them: every field on its own line, indented, with a trailing comma. -/
def entryFields (e : VaultEntry) : List Char :=
  fieldIndent ++ kwLabel ++ [':', ' '] ++ printString e.label ++ commaNl ++
  fieldIndent ++ kwUsername ++ [':', ' '] ++ printOptString e.username ++
    commaNl ++
  fieldIndent ++ kwPassword ++ [':', ' '] ++ printString e.password ++
    commaNl ++
  fieldIndent ++ kwNotes ++ [':', ' '] ++ printOptString e.notes ++ commaNl

/-- One record as an anonymous RON struct across several lines. -/
def printEntry (e : VaultEntry) : List Char :=
  '(' :: '\n' :: (entryFields e ++ itemIndent ++ [')'])

/-- One array item: indentation, the index comment that the
`enumerate_arrays` pretty option emits, the record, a trailing comma. -/
def printItem (i : Nat) (e : VaultEntry) : List Char :=
  itemIndent ++ ['/', '*', '['] ++ natChars i ++ [']', '*', '/', ' '] ++
    printEntry e ++ commaNl

/-- All array items, enumerated from `i`. -/
def printItems (i : Nat) : List VaultEntry → List Char
  | [] => []
  | e :: es => printItem i e ++ printItems (i + 1) es

/-- `RonCodec::encode` from vault/codec.rs: `ron::ser::to_string_pretty`
of the record list, with the pretty configuration used there (four-space
indentation, enumerated arrays).  The ron crate is external; this is its
output format for this record type. -/
def RonCodec.encode (entries : List VaultEntry) : String :=
  if entries.isEmpty then ⟨['[', ']']⟩
  else ⟨'[' :: '\n' :: (printItems 0 entries ++ [']'])⟩

/-- Skip whitespace and block comments, as the ron parser does between
tokens.  The boolean is true while scanning the inside of a block comment
(printed comments never nest).  Structurally recursive on the input. -/
def skipTriviaAux : Bool → List Char → List Char
  | _, [] => []
  | true, c :: rest =>
    if c = '*' then
      match rest with
      | '/' :: rest2 => skipTriviaAux false rest2
      | [] => []
      | c2 :: rest2 => skipTriviaAux true (c2 :: rest2)
    else skipTriviaAux true rest
  | false, c :: rest =>
    if c = ' ' ∨ c = '\n' ∨ c = '\t' ∨ c = '\r' then
      skipTriviaAux false rest
    else if c = '/' then
      match rest with
      | '*' :: rest2 => skipTriviaAux true rest2
      | _ => c :: rest
    else c :: rest

/-- Skip whitespace and block comments outside a comment. -/
def skipTrivia (l : List Char) : List Char := skipTriviaAux false l

/-- Parse the body of a RON string literal up to the closing quote,
undoing the escapes the serializer produces. -/
def parseStrBody : List Char → Option (List Char × List Char)
  | [] => none
  | c :: rest =>
    if c = '"' then some ([], rest)
    else if c = '\\' then
      match rest with
      | [] => none
      | c2 :: rest2 =>
        match parseStrBody rest2 with
        | some (s, r) => some (c2 :: s, r)
        | none => none
    else
      match parseStrBody rest with
      | some (s, r) => some (c :: s, r)
      | none => none

/-- Parse a RON string literal starting at an opening quote. -/
def parseString (l : List Char) : Option (String × List Char) :=
  match l with
  | '"' :: rest =>
    match parseStrBody rest with
    | some (s, r) => some (⟨s⟩, r)
    | none => none
  | _ => none

/-- Consume an exact character sequence. -/
def expectChars : List Char → List Char → Option (List Char)
  | [], l => some l
  | _ :: _, [] => none
  | p :: ps, c :: cs => if c = p then expectChars ps cs else none

/-- Skip trivia, then consume one expected character. -/
def expectTok (t : Char) (l : List Char) : Option (List Char) :=
  match skipTrivia l with
  | c :: rest => if c = t then some rest else none
  | [] => none

/-- Skip trivia, then consume an expected keyword. -/
def expectKw (kw : List Char) (l : List Char) : Option (List Char) :=
  expectChars kw (skipTrivia l)

/-- Parse a RON optional string: `None`, or `Some(` string `)`. -/
def parseOptString (l : List Char) : Option (Option String × List Char) :=
  match expectChars kwNone l with
  | some rest => some (none, rest)
  | none =>
    match expectChars kwSomeOpen l with
    | none => none
    | some rest =>
      match parseString (skipTrivia rest) with
      | none => none
      | some (s, rest2) =>
        match skipTrivia rest2 with
        | ')' :: rest3 => some (some s, rest3)
        | _ => none

/-- Parse one record: an anonymous RON struct with the fields of
`VaultEntry` in declaration order.  The `username` field may be absent
(it carries a serde `default` attribute); the others are required. -/
def parseEntry (l : List Char) : Option (VaultEntry × List Char) := do
  let r ← expectTok '(' l
  let r ← expectKw kwLabel r
  let r ← expectTok ':' r
  let (lab, r) ← parseString (skipTrivia r)
  let r ← expectTok ',' r
  let (username, r) ←
    match expectKw kwUsername r with
    | some r1 => do
        let r2 ← expectTok ':' r1
        let (u, r3) ← parseOptString (skipTrivia r2)
        let r4 ← expectTok ',' r3
        pure (u, r4)
    | none => pure ((none : Option String), r)
  let r ← expectKw kwPassword r
  let r ← expectTok ':' r
  let (pwd, r) ← parseString (skipTrivia r)
  let r ← expectTok ',' r
  let r ← expectKw kwNotes r
  let r ← expectTok ':' r
  let (nts, r) ← parseOptString (skipTrivia r)
  let r ←
    match expectTok ',' r with
    | some r2 => expectTok ')' r2
    | none => expectTok ')' r
  pure (⟨lab, username, pwd, nts⟩, r)

/-- Parse the items of a RON array up to and including the closing
bracket, allowing a trailing comma.  `fuel` bounds the number of items
(the caller supplies the input length, which suffices since every item
consumes at least one character). -/
def parseItems : Nat → List Char → Option (List VaultEntry × List Char)
  | 0, _ => none
  | fuel + 1, l =>
    match skipTrivia l with
    | ']' :: r => some ([], r)
    | l1 => do
      let (e, r) ← parseEntry l1
      match expectTok ',' r with
      | some r2 => do
        let (es, r3) ← parseItems fuel r2
        pure (e :: es, r3)
      | none => do
        let r2 ← expectTok ']' r
        pure ([e], r2)

/-- `RonCodec::decode` from vault/codec.rs: `ron::from_str` for a record
list (the ron crate is external; this is its grammar restricted to the
shapes that serialization of this record type produces, with arbitrary
interleaved whitespace, comments, and optional trailing commas).  The
UTF-8 check of the Rust code cannot fail in the model because Lean
strings are always valid text.  A parse failure is the decode error. -/
def RonCodec.decode (s : String) : Except VErr (List VaultEntry) :=
  match expectTok '[' s.data with
  | none => .error .decodeError
  | some r =>
    match parseItems (r.length + 1) r with
    | none => .error .decodeError
    | some (es, rest) =>
      if skipTrivia rest = [] then .ok es else .error .decodeError

@[simp] theorem stA_space (l : List Char) :
    skipTriviaAux false (' ' :: l) = skipTriviaAux false l := by
  rw [skipTriviaAux.eq_def]; simp

@[simp] theorem stA_newline (l : List Char) :
    skipTriviaAux false ('\n' :: l) = skipTriviaAux false l := by
  rw [skipTriviaAux.eq_def]; simp

@[simp] theorem stA_open (l : List Char) :
    skipTriviaAux false ('/' :: '*' :: l) = skipTriviaAux true l := by
  rw [skipTriviaAux.eq_def]; simp

@[simp] theorem stA_close (l : List Char) :
    skipTriviaAux true ('*' :: '/' :: l) = skipTriviaAux false l := by
  rw [skipTriviaAux.eq_def]; simp

@[simp] theorem stA_incomment (c : Char) (l : List Char) (h : c ≠ '*') :
    skipTriviaAux true (c :: l) = skipTriviaAux true l := by
  rw [skipTriviaAux.eq_def]
  simp only [if_neg h]

@[simp] theorem stA_stop (c : Char) (l : List Char) (h1 : c ≠ ' ')
    (h2 : c ≠ '\n') (h3 : c ≠ '\t') (h4 : c ≠ '\x0d') (h5 : c ≠ '/') :
    skipTriviaAux false (c :: l) = c :: l := by
  rw [skipTriviaAux.eq_def]
  simp [h1, h2, h3, h4, h5]

/-- Scanning the inside of a comment skips star-free text up to the
closing star-slash pair. -/
theorem stA_comment_body (body rest : List Char)
    (h : ∀ c ∈ body, c ≠ '*') :
    skipTriviaAux true (body ++ '*' :: '/' :: rest) =
      skipTriviaAux false rest := by
  induction body with
  | nil => simp
  | cons c bs ih =>
    have hc : c ≠ '*' := h c (by simp)
    rw [List.cons_append, stA_incomment c _ hc]
    exact ih (fun x hx => h x (by simp [hx]))

theorem digitChar_ne_star (d : Nat) (h : d < 10) :
    Nat.digitChar d ≠ '*' := by
  interval_cases d <;> decide

theorem natCharsAux_ne_star (fuel n : Nat) (acc : List Char)
    (hacc : ∀ c ∈ acc, c ≠ '*') :
    ∀ c ∈ natCharsAux fuel n acc, c ≠ '*' := by
  induction fuel generalizing n acc with
  | zero => simpa [natCharsAux] using hacc
  | succ fuel ih =>
    unfold natCharsAux
    split
    · intro c hc
      rcases List.mem_cons.mp hc with h | h
      · subst h
        exact digitChar_ne_star n (by omega)
      · exact hacc c h
    · exact ih (n / 10) _ (by
        intro c hc
        rcases List.mem_cons.mp hc with h | h
        · subst h
          exact digitChar_ne_star (n % 10) (Nat.mod_lt n (by omega))
        · exact hacc c h)

theorem natChars_ne_star (n : Nat) : ∀ c ∈ natChars n, c ≠ '*' :=
  natCharsAux_ne_star (n + 1) n [] (by simp)

@[simp] theorem expectChars_append (pat rest : List Char) :
    expectChars pat (pat ++ rest) = some rest := by
  induction pat with
  | nil => simp [expectChars]
  | cons c cs ih => simp [expectChars, ih]

theorem parseStrBody_escape (cs rest : List Char) :
    parseStrBody (escapeChars cs ++ '"' :: rest) = some (cs, rest) := by
  induction cs with
  | nil =>
    rw [escapeChars, List.nil_append, parseStrBody.eq_def]
    simp
  | cons c cs ih =>
    have he : escapeChars (c :: cs) =
        if c = '\\' ∨ c = '"' then '\\' :: c :: escapeChars cs
        else c :: escapeChars cs := rfl
    rw [he]
    by_cases hc : c = '\\' ∨ c = '"'
    · rw [if_pos hc, List.cons_append, List.cons_append,
        parseStrBody.eq_def]
      simp [ih]
    · push_neg at hc
      rw [if_neg (by tauto), List.cons_append, parseStrBody.eq_def]
      simp [hc.1, hc.2, ih]

@[simp] theorem parseString_print (s : String) (rest : List Char) :
    parseString (printString s ++ rest) = some (s, rest) := by
  rw [printString, List.cons_append, List.append_assoc]
  rw [parseString.eq_def]
  simp [parseStrBody_escape]

@[simp] theorem parseOptString_print (u : Option String)
    (rest : List Char) :
    parseOptString (printOptString u ++ rest) = some (u, rest) := by
  cases u with
  | none =>
    rw [printOptString, parseOptString]
    simp [kwNone, expectChars]
  | some s =>
    rw [printOptString, parseOptString]
    have h1 : expectChars kwNone
        ((['S', 'o', 'm', 'e', '('] ++ printString s ++ [')']) ++ rest) =
        none := by
      simp [kwNone, expectChars]
    rw [h1]
    have h2 : (['S', 'o', 'm', 'e', '('] ++ printString s ++ [')']) ++
        rest = kwSomeOpen ++ (printString s ++ (')' :: rest)) := by
      simp [kwSomeOpen]
    rw [h2, expectChars_append]
    have h3 : skipTriviaAux false (printString s ++ (')' :: rest)) =
        printString s ++ (')' :: rest) := by
      rw [printString, List.cons_append]
      simp
    simp [h3, skipTrivia]

@[simp] theorem stA_printString (s : String) (l : List Char) :
    skipTriviaAux false (printString s ++ l) = printString s ++ l := by
  rw [printString, List.cons_append]
  simp

@[simp] theorem stA_printOpt (u : Option String) (l : List Char) :
    skipTriviaAux false (printOptString u ++ l) = printOptString u ++ l := by
  cases u <;> rw [printOptString] <;> simp

theorem parseEntry_print (e : VaultEntry) (tail : List Char) :
    parseEntry (printEntry e ++ tail) = some (e, tail) := by
  rw [parseEntry, printEntry, entryFields]
  simp [expectTok, expectKw, skipTrivia, fieldIndent, itemIndent, commaNl,
    kwLabel, kwUsername, kwPassword, kwNotes, expectChars, Option.bind]

theorem parseItems_congr (fuel : Nat) (la lb : List Char)
    (h : skipTrivia la = skipTrivia lb) :
    parseItems fuel la = parseItems fuel lb := by
  cases fuel with
  | zero => rfl
  | succ fuel =>
    simp only [parseItems]
    rw [h]

theorem parseItems_succ_rbrack (fuel : Nat) (l r : List Char)
    (h : skipTrivia l = ']' :: r) :
    parseItems (fuel + 1) l = some ([], r) := by
  simp only [parseItems]
  rw [h]
  simp

theorem parseItems_succ_entry (fuel : Nat) (l r : List Char) (c : Char)
    (h : skipTrivia l = c :: r) (hc : c ≠ ']') :
    parseItems (fuel + 1) l = (do
      let (e, r2) ← parseEntry (c :: r)
      match expectTok ',' r2 with
      | some r3 => do
        let (es, r4) ← parseItems fuel r3
        pure (e :: es, r4)
      | none => do
        let r3 ← expectTok ']' r2
        pure ([e], r3)) := by
  simp only [parseItems]
  rw [h]
  split
  · rename_i heq
    injection heq with h1 h2
    exact absurd h1 hc
  · rfl

@[simp] theorem stA_comment_digits (i : Nat) (rest : List Char) :
    skipTriviaAux true (natChars i ++ (']' :: '*' :: '/' :: rest)) =
      skipTriviaAux false rest := by
  have hsh : natChars i ++ (']' :: '*' :: '/' :: rest) =
      (natChars i ++ [']']) ++ ('*' :: '/' :: rest) := by simp
  rw [hsh]
  have := stA_comment_body (natChars i ++ [']']) rest ?_
  · simpa using this
  · intro c hc
    rcases List.mem_append.mp hc with h | h
    · exact natChars_ne_star i c h
    · simp at h
      subst h
      decide

@[simp] theorem stA_printEntry (e : VaultEntry) (l : List Char) :
    skipTriviaAux false (printEntry e ++ l) = printEntry e ++ l := by
  rw [printEntry, List.cons_append]
  simp

theorem skipTrivia_printItem (i : Nat) (e : VaultEntry) (X : List Char) :
    skipTrivia (printItem i e ++ X) = printEntry e ++ (commaNl ++ X) := by
  rw [printItem, skipTrivia]
  simp [itemIndent]

theorem parseItems_print (es : List VaultEntry) (i fuel : Nat)
    (tail : List Char) (hfuel : es.length < fuel) :
    parseItems fuel (printItems i es ++ ']' :: tail) = some (es, tail) := by
  induction es generalizing i fuel tail with
  | nil =>
    cases fuel with
    | zero => omega
    | succ fuel =>
      rw [printItems, List.nil_append]
      apply parseItems_succ_rbrack
      simp [skipTrivia]
  | cons e es ih =>
    cases fuel with
    | zero => omega
    | succ fuel =>
      rw [printItems, List.append_assoc]
      have hst : skipTrivia (printItem i e ++
          (printItems (i + 1) es ++ ']' :: tail)) =
          '(' :: ('\n' :: ((entryFields e ++ itemIndent ++ [')']) ++
            (commaNl ++ (printItems (i + 1) es ++ ']' :: tail)))) := by
        rw [skipTrivia_printItem, printEntry]
        simp
      rw [parseItems_succ_entry fuel _ _ '(' hst (by decide)]
      have hpe : ('(' : Char) :: ('\n' :: ((entryFields e ++ itemIndent ++
          [')']) ++ (commaNl ++ (printItems (i + 1) es ++ ']' :: tail)))) =
          printEntry e ++ (commaNl ++ (printItems (i + 1) es ++ ']' ::
            tail)) := by
        rw [printEntry]
        simp
      rw [hpe, parseEntry_print]
      have hcomma : expectTok ',' (commaNl ++ (printItems (i + 1) es ++
          ']' :: tail)) = some ('\n' :: (printItems (i + 1) es ++ ']' ::
            tail)) := by
        simp [commaNl, expectTok, skipTrivia]
      have hcongr : parseItems fuel ('\n' :: (printItems (i + 1) es ++
          ']' :: tail)) = parseItems fuel (printItems (i + 1) es ++ ']' ::
            tail) := by
        apply parseItems_congr
        simp [skipTrivia]
      simp only [Option.bind_eq_bind, Option.some_bind, hcomma, hcongr]
      rw [ih (i + 1) fuel tail (by simp at hfuel; omega)]
      rfl

@[simp] theorem stA_nil (b : Bool) : skipTriviaAux b [] = [] := by
  cases b <;> rfl

theorem printItems_le_length (es : List VaultEntry) (i : Nat) :
    es.length ≤ (printItems i es).length := by
  induction es generalizing i with
  | nil => simp [printItems]
  | cons e es ih =>
    have := ih (i + 1)
    simp [printItems, printItem, itemIndent]
    omega

/-- The record codec round-trips: decoding an encoded record list yields
the records back. -/
theorem decode_encode (es : List VaultEntry) :
    RonCodec.decode (RonCodec.encode es) = .ok es := by
  cases es with
  | nil => rfl
  | cons e es =>
    rw [RonCodec.encode]
    simp only [List.isEmpty_cons, if_neg Bool.false_ne_true]
    rw [RonCodec.decode]
    have hd : (String.mk ('[' :: '\n' :: (printItems 0 (e :: es) ++
        [']']))).data = '[' :: '\n' :: (printItems 0 (e :: es) ++ [']']) :=
      rfl
    rw [hd]
    have htok : expectTok '[' ('[' :: '\n' :: (printItems 0 (e :: es) ++
        [']'])) = some ('\n' :: (printItems 0 (e :: es) ++ [']'])) := by
      simp [expectTok, skipTrivia]
    rw [htok]
    dsimp only
    have hcongr : parseItems (('\n' :: (printItems 0 (e :: es) ++
        [']'])).length + 1) ('\n' :: (printItems 0 (e :: es) ++ [']'])) =
        parseItems (('\n' :: (printItems 0 (e :: es) ++ [']'])).length + 1)
          (printItems 0 (e :: es) ++ ']' :: []) := by
      apply parseItems_congr
      simp [skipTrivia]
    rw [hcongr]
    rw [parseItems_print (e :: es) 0 _ [] (by
      have := printItems_le_length (e :: es) 0
      simp only [List.length_cons, List.length_append, List.length_nil]
        at this ⊢
      omega)]
    simp [skipTrivia, stA_nil]

/-- Claim C1: for every record list, every set of valid KDF parameters
and well-formed salt, and every key, decrypting the output of
`encrypt_vault_with_key` applied to the encoded records under the same
key returns exactly the encoded plaintext, and decoding that plaintext
with the record codec returns the records. -/
theorem vault_roundtrip_under_correct_key (R : List VaultEntry)
    (m t p : Nat) (salt nonce : List Nat) (k : Key)
    (_hv : 8 ≤ m ∧ 1 ≤ t ∧ 1 ≤ p)
    (hs : salt.length = 16) (hn : nonce.length = 12) :
    decrypt_vault_with_key
      (encrypt_vault_with_key (RonCodec.encode R) m t p salt k nonce) k =
      .ok (RonCodec.encode R)
    ∧ RonCodec.decode (RonCodec.encode R) = .ok R :=
  ⟨decrypt_encrypt_with_key (RonCodec.encode R) m t p salt nonce k hs hn,
    decode_encode R⟩

def entry0 : VaultEntry := ⟨("alpha"), none, ("pw1"), none⟩

def key0 : Key := ⟨("master"), List.replicate 16 0, 65536, 3, 1⟩

/-- Witness for the round-trip theorem at concrete inputs. -/
theorem vault_roundtrip_under_correct_key_check :
    decrypt_vault_with_key
      (encrypt_vault_with_key (RonCodec.encode [entry0]) 65536 3 1
        (List.replicate 16 0) key0 (List.replicate 12 1)) key0 =
      .ok (RonCodec.encode [entry0])
    ∧ RonCodec.decode (RonCodec.encode [entry0]) = .ok [entry0] :=
  vault_roundtrip_under_correct_key [entry0] 65536 3 1
    (List.replicate 16 0) (List.replicate 12 1) key0 (by decide)
    (by decide) (by decide)

set_option maxRecDepth 10000

deriving instance DecidableEq for Except

/-- `VaultService::load` from core/service.rs: read the stored bytes;
empty means the empty record list; a non-empty store without the KEVI
magic is the unsupported-format error; otherwise parse the header,
resolve a key for it, decrypt, and decode.  The resolver is modelled as a
function from the parsed header to the key it returns (the claims below
quantify over it; resolver failures propagate unchanged in the code and
are covered by the resolver-level theorems). -/
def VaultService.load (s : Stored) (resolve : KeviHeader → Key) :
    Except VErr (List VaultEntry) :=
  if storedBytes s = [] then .ok []
  else if (storedBytes s).take 4 ≠ headerMagic then
    .error .unsupportedFormat
  else
    match parse_kevi_header (storedBytes s) with
    | .error e => .error (.header e)
    | .ok (hdr, _) =>
      match decrypt_vault_with_key s (resolve hdr) with
      | .error e => .error e
      | .ok pt => RonCodec.decode pt

/-- `VaultService::save` from core/service.rs: encode the records; if the
store is non-empty, parse its header and reuse its parameters and salt
with a freshly drawn nonce; if empty, use the default parameters and a
freshly drawn salt.  `resolve` and `resolveNew` model the two resolver
operations; `freshSalt` and `freshNonce` model the CSPRNG draws. -/
def VaultService.save (s : Stored) (resolve : KeviHeader → Key)
    (resolveNew : Nat → Nat → Nat → List Nat → Key)
    (entries : List VaultEntry) (freshSalt freshNonce : List Nat) :
    Except VErr Stored :=
  if storedBytes s ≠ [] then
    match parse_kevi_header (storedBytes s) with
    | .error e => .error (.header e)
    | .ok (hdr, _) =>
      .ok (encrypt_vault_with_key (RonCodec.encode entries) hdr.m_cost_kib
        hdr.t_cost hdr.p_lanes hdr.salt (resolve hdr) freshNonce)
  else
    .ok (encrypt_vault_with_key (RonCodec.encode entries) 65536 3 1
      freshSalt (resolveNew 65536 3 1 freshSalt) freshNonce)

/-- `VaultService::remove_entry` from core/service.rs: load, retain the
records whose label differs, save only when the count decreased, and
return whether anything was removed.  The second component of the result
is the byte-store content afterwards (unchanged when nothing matched). -/
def VaultService.remove_entry (s : Stored) (resolve : KeviHeader → Key)
    (resolveNew : Nat → Nat → Nat → List Nat → Key) (label : String)
    (freshSalt freshNonce : List Nat) : Except VErr (Bool × Stored) :=
  match VaultService.load s resolve with
  | .error e => .error e
  | .ok entries =>
    if (entries.filter (fun e => e.label ≠ label)).length ≠
        entries.length then
      match VaultService.save s resolve resolveNew
          (entries.filter (fun e => e.label ≠ label)) freshSalt
          freshNonce with
      | .error e => .error e
      | .ok s2 => .ok (true, s2)
    else .ok (false, s)

/-- Claim C4: loading an empty store yields the empty record list, and
loading any non-empty store that does not begin with the KEVI magic fails
with the unsupported-format error, whatever key the resolver would
return (so decryption is never attempted). -/
theorem load_empty_and_plaintext_reject (s : Stored)
    (resolve : KeviHeader → Key) :
    (storedBytes s = [] → VaultService.load s resolve = .ok [])
    ∧ (storedBytes s ≠ [] → (storedBytes s).take 4 ≠ headerMagic →
        VaultService.load s resolve = .error .unsupportedFormat) := by
  constructor
  · intro h
    rw [VaultService.load, if_pos h]
  · intro h1 h2
    rw [VaultService.load, if_neg (by simpa using h1), if_pos h2]

/-- Witness for the load rejection theorem: the empty file loads as the
empty list; three plaintext bytes are rejected as unsupported format. -/
theorem load_empty_and_plaintext_reject_check :
    VaultService.load (.plain []) (fun _ => key0) = .ok []
    ∧ VaultService.load (.plain [104, 105, 33]) (fun _ => key0) =
        .error .unsupportedFormat :=
  ⟨(load_empty_and_plaintext_reject (.plain []) (fun _ => key0)).1
      (by decide),
    (load_empty_and_plaintext_reject (.plain [104, 105, 33])
      (fun _ => key0)).2 (by decide) (by decide)⟩

/-- Claim C3: saving over a non-empty store whose header parses reuses
that header's memory cost, time cost, lane count and salt unchanged,
while the written nonce is the fresh CSPRNG draw of this write. -/
theorem save_preserves_salt_and_params (s : Stored)
    (resolve : KeviHeader → Key)
    (resolveNew : Nat → Nat → Nat → List Nat → Key)
    (entries : List VaultEntry) (freshSalt freshNonce : List Nat)
    (hdr : KeviHeader) (off : Nat)
    (hne : storedBytes s ≠ [])
    (hp : parse_kevi_header (storedBytes s) = .ok (hdr, off)) :
    VaultService.save s resolve resolveNew entries freshSalt freshNonce =
      .ok (.vault ⟨hdr.m_cost_kib, hdr.t_cost, hdr.p_lanes, hdr.salt,
          freshNonce⟩
        ⟨resolve hdr, freshNonce,
          build_header hdr.salt freshNonce hdr.m_cost_kib hdr.t_cost
            hdr.p_lanes, RonCodec.encode entries⟩) := by
  rw [VaultService.save, if_pos hne, hp]
  rfl

def sampleHeaderData : VaultHeaderData :=
  ⟨65536, 3, 1, List.replicate 16 2, List.replicate 12 3⟩

def sampleBox : SealedBox :=
  ⟨key0, List.replicate 12 3,
    build_header (List.replicate 16 2) (List.replicate 12 3) 65536 3 1,
    RonCodec.encode [entry0]⟩

/-- Witness for the save theorem: over a concrete stored vault, save
emits a file whose header keeps the old salt and parameters and carries
the fresh nonce. -/
theorem save_preserves_salt_and_params_check :
    VaultService.save (.vault sampleHeaderData sampleBox) (fun _ => key0)
      (fun _ _ _ _ => key0) [entry0] (List.replicate 16 9)
      (List.replicate 12 7) =
      .ok (.vault ⟨65536, 3, 1, List.replicate 16 2, List.replicate 12 7⟩
        ⟨key0, List.replicate 12 7,
          build_header (List.replicate 16 2) (List.replicate 12 7)
            65536 3 1, RonCodec.encode [entry0]⟩) :=
  save_preserves_salt_and_params (.vault sampleHeaderData sampleBox)
    (fun _ => key0) (fun _ _ _ _ => key0) [entry0]
    (List.replicate 16 9) (List.replicate 12 7)
    ⟨1, 2, 1, 65536, 3, 1, List.replicate 16 2, List.replicate 12 3⟩ 48
    (by decide) (by decide)

theorem filter_length_lt_of_mem {α : Type} (l : List α) (p : α → Bool)
    (x : α) (hx : x ∈ l) (hpx : p x = false) :
    (l.filter p).length < l.length := by
  induction l with
  | nil => cases hx
  | cons a l ih =>
    rcases List.mem_cons.mp hx with h | h
    · subst h
      rw [List.filter_cons, hpx]
      simp only [Bool.false_eq_true, if_false]
      have := List.length_filter_le p l
      simp only [List.length_cons]
      omega
    · rw [List.filter_cons]
      by_cases hpa : p a = true
      · rw [if_pos hpa]
        have := ih h
        simp only [List.length_cons]
        omega
      · rw [if_neg hpa]
        have := ih h
        simp only [List.length_cons]
        omega

/-- A successful load of a non-empty record list implies the store is
non-empty and its header parses. -/
theorem load_ok_parse (s : Stored) (resolve : KeviHeader → Key)
    (R : List VaultEntry)
    (hload : VaultService.load s resolve = .ok R) (hR : R ≠ []) :
    storedBytes s ≠ [] ∧
      ∃ hdr off, parse_kevi_header (storedBytes s) = .ok (hdr, off) := by
  by_cases h0 : storedBytes s = []
  · rw [VaultService.load, if_pos h0] at hload
    exact absurd (Except.ok.inj hload).symm hR
  · refine ⟨h0, ?_⟩
    rw [VaultService.load, if_neg (by simpa using h0)] at hload
    by_cases h1 : (storedBytes s).take 4 ≠ headerMagic
    · rw [if_pos h1] at hload
      cases hload
    · rw [if_neg h1] at hload
      cases hp : parse_kevi_header (storedBytes s) with
      | error e =>
        rw [hp] at hload
        cases hload
      | ok pr =>
        obtain ⟨hdr, off⟩ := pr
        exact ⟨hdr, off, rfl⟩

/-- Claim C9: for every label, `remove_entry` removes all records whose
label equals it (duplicates included), saves the reduced list and returns
true exactly when at least one record matched, and returns false with the
store unchanged when none matched. -/
theorem remove_entry_spec (s : Stored) (resolve : KeviHeader → Key)
    (resolveNew : Nat → Nat → Nat → List Nat → Key) (label : String)
    (freshSalt freshNonce : List Nat) (R : List VaultEntry)
    (hload : VaultService.load s resolve = .ok R) :
    ((∀ e ∈ R, e.label ≠ label) →
      VaultService.remove_entry s resolve resolveNew label freshSalt
        freshNonce = .ok (false, s))
    ∧ ((∃ e ∈ R, e.label = label) →
      ∃ hdr off, parse_kevi_header (storedBytes s) = .ok (hdr, off)
        ∧ VaultService.remove_entry s resolve resolveNew label freshSalt
            freshNonce =
          .ok (true, encrypt_vault_with_key
            (RonCodec.encode (R.filter (fun e => e.label ≠ label)))
            hdr.m_cost_kib hdr.t_cost hdr.p_lanes hdr.salt (resolve hdr)
            freshNonce)
        ∧ (∀ e ∈ R.filter (fun e => e.label ≠ label), e.label ≠ label)
        ∧ (∀ e ∈ R, e.label ≠ label →
            e ∈ R.filter (fun e => e.label ≠ label))) := by
  constructor
  · intro hall
    have hfil : R.filter (fun e => e.label ≠ label) = R :=
      List.filter_eq_self.mpr (by
        intro a ha
        simpa using hall a ha)
    rw [VaultService.remove_entry, hload]
    dsimp only
    rw [hfil]
    simp
  · rintro ⟨e0, he0, hlab⟩
    have hR : R ≠ [] := by
      intro h
      rw [h] at he0
      cases he0
    obtain ⟨h0, hdr, off, hp⟩ := load_ok_parse s resolve R hload hR
    have hlt : (R.filter (fun e => e.label ≠ label)).length < R.length :=
      filter_length_lt_of_mem R _ e0 he0 (by simp [hlab])
    refine ⟨hdr, off, hp, ?_, ?_, ?_⟩
    · rw [VaultService.remove_entry, hload]
      dsimp only
      rw [if_pos (Nat.ne_of_lt hlt)]
      rw [save_preserves_salt_and_params s resolve resolveNew _ freshSalt
        freshNonce hdr off h0 hp]
      rfl
    · intro e he
      have := (List.mem_filter.mp he).2
      simpa using this
    · intro e he hne
      exact List.mem_filter.mpr ⟨he, by simpa using hne⟩

def entryB : VaultEntry := ⟨("beta"), none, ("pw2"), none⟩

def sampleVault : Stored :=
  encrypt_vault_with_key (RonCodec.encode [entry0, entryB]) 65536 3 1
    (List.replicate 16 2) key0 (List.replicate 12 3)

/-- Witness for the remove theorem: removing a label that no stored
record carries returns false and leaves the store unchanged. -/
theorem remove_entry_spec_check :
    VaultService.remove_entry sampleVault (fun _ => key0)
      (fun _ _ _ _ => key0) ("zeta") (List.replicate 16 9)
      (List.replicate 12 7) = .ok (false, sampleVault) :=
  (remove_entry_spec sampleVault (fun _ => key0) (fun _ _ _ _ => key0)
    ("zeta") (List.replicate 16 9) (List.replicate 12 7)
    [entry0, entryB] (by decide)).1 (by decide)

/-- The file system around one vault path, as a map from slot numbers to
file contents: slot 0 is the vault path itself, slot i (for i ≥ 1) is
the backup `path.i`.  `none` means the file does not exist. -/
def FsState : Type := Nat → Option (List Nat)

/-- No files at all: the vault has not been created yet. -/
def emptyFs : FsState := fun _ => none

/-- `fs::remove_file` on a slot; absence is tolerated, as in the code. -/
def removeSlot (st : FsState) (i : Nat) : FsState :=
  fun j => if j = i then none else st j

/-- `atomic_write_secure`: the slot holds the new contents afterwards. -/
def setSlot (st : FsState) (i : Nat) (v : List Nat) : FsState :=
  fun j => if j = i then some v else st j

/-- `fs::rename` from `src` to `dst`, performed only when `src` exists
(the code checks `src.exists()` first); renaming over an existing
destination replaces it. -/
def renameIfExists (st : FsState) (src dst : Nat) : FsState :=
  match st src with
  | none => st
  | some v =>
      fun j => if j = dst then some v else if j = src then none else st j

/-- The shift loop of `write_with_backups_n`: for i from `m` down to 1,
rename backup i to backup i+1 when it exists. -/
def shiftBackups (st : FsState) : Nat → FsState
  | 0 => st
  | m + 1 => shiftBackups (renameIfExists st (m + 1) (m + 2)) m

/-- `write_with_backups_n` from core/fs_secure.rs: with positive depth,
remove the oldest backup `path.n`, shift `path.(n-1) … path.1` up by
one, move the current file to `path.1`, then write the new contents to
the path atomically; with depth zero, only the atomic write happens. -/
def write_with_backups_n (st : FsState) (bytes : List Nat) (n : Nat) :
    FsState :=
  if 0 < n then
    setSlot (renameIfExists (shiftBackups (removeSlot st n) (n - 1)) 0 1)
      0 bytes
  else setSlot st 0 bytes

/-- State after `k` successive writes of contents `c 0 … c (k-1)` with
depth `n`, starting from no files. -/
def writeSeq (c : Nat → List Nat) (n : Nat) : Nat → FsState
  | 0 => emptyFs
  | k + 1 => write_with_backups_n (writeSeq c n k) (c k) n

/-- Closed form of the state after `k` writes: the path holds the last
contents, and backup i holds the contents from i writes back, for
1 ≤ i ≤ min (k-1) n. -/
def invState (c : Nat → List Nat) (n k : Nat) : FsState :=
  fun i =>
    if i = 0 then (if 1 ≤ k then some (c (k - 1)) else none)
    else if 1 ≤ i ∧ i ≤ min (k - 1) n then some (c (k - 1 - i))
    else none

theorem renameIfExists_src (st : FsState) (src dst : Nat)
    (hne : src ≠ dst) : renameIfExists st src dst src = none := by
  rw [renameIfExists]
  cases h : st src with
  | none => exact h
  | some v => simp [hne, Ne.symm hne]

theorem renameIfExists_dst (st : FsState) (src dst : Nat)
    (hdst : st dst = none) (hne : src ≠ dst) :
    renameIfExists st src dst dst = st src := by
  rw [renameIfExists]
  cases h : st src with
  | none => exact hdst
  | some v => simp

theorem renameIfExists_other (st : FsState) (src dst j : Nat)
    (h1 : j ≠ src) (h2 : j ≠ dst) :
    renameIfExists st src dst j = st j := by
  rw [renameIfExists]
  cases h : st src with
  | none => rfl
  | some v => simp [h1, h2]

theorem shiftBackups_spec (m : Nat) (st : FsState)
    (hm : st (m + 1) = none) (j : Nat) :
    shiftBackups st m j =
      if 2 ≤ j ∧ j ≤ m + 1 then st (j - 1)
      else if j = 1 ∧ 1 ≤ m then none
      else st j := by
  induction m generalizing st with
  | zero =>
    rw [shiftBackups]
    rw [if_neg (by omega), if_neg (by omega)]
  | succ m ih =>
    rw [shiftBackups]
    have hsrc : renameIfExists st (m + 1) (m + 2) (m + 1) = none :=
      renameIfExists_src st (m + 1) (m + 2) (by omega)
    rw [ih _ hsrc]
    by_cases hj2 : 2 ≤ j ∧ j ≤ m + 1
    · rw [if_pos hj2, if_pos (by omega)]
      exact renameIfExists_other st (m + 1) (m + 2) (j - 1)
        (by omega) (by omega)
    · rw [if_neg hj2]
      by_cases hj1 : j = 1 ∧ 1 ≤ m
      · rw [if_pos hj1, if_neg (by omega : ¬ (2 ≤ j ∧ j ≤ m + 2)),
          if_pos (by omega)]
      · rw [if_neg hj1]
        by_cases hjtop : j = m + 2
        · subst hjtop
          rw [if_pos (by omega)]
          have : m + 2 - 1 = m + 1 := by omega
          rw [this]
          exact renameIfExists_dst st (m + 1) (m + 2) hm (by omega)
        · by_cases hjone : j = m + 1
          · subst hjone
            rw [if_neg (by omega), if_pos (by omega)]
            exact hsrc
          · rw [if_neg (by omega), if_neg (by omega)]
            exact renameIfExists_other st (m + 1) (m + 2) j
              (by omega) (by omega)

theorem invState_zero (c : Nat → List Nat) (n j : Nat) :
    invState c n 0 j = none := by
  rw [invState]
  split_ifs <;> first | rfl | omega

/-- The state after `k` writes is exactly the closed form `invState`. -/
theorem writeSeq_eq (c : Nat → List Nat) (n : Nat) :
    ∀ k j, writeSeq c n k j = invState c n k j := by
  intro k
  induction k with
  | zero =>
    intro j
    rw [writeSeq]
    rw [invState_zero]
    rfl
  | succ k ih =>
    have ihf : writeSeq c n k = invState c n k := funext ih
    intro j
    rw [writeSeq, ihf, write_with_backups_n]
    by_cases hn : 0 < n
    · rw [if_pos hn]
      have hm1 : n - 1 + 1 = n := by omega
      have hAn : removeSlot (invState c n k) n n = none := by
        rw [removeSlot]
        simp
      have hspec := shiftBackups_spec (n - 1)
        (removeSlot (invState c n k) n) (by rw [hm1]; exact hAn)
      rw [setSlot]
      by_cases hj0 : j = 0
      · subst hj0
        rw [if_pos rfl, invState]
        simp
      · rw [if_neg hj0]
        have hstB0 : shiftBackups (removeSlot (invState c n k) n)
            (n - 1) 0 = invState c n k 0 := by
          rw [hspec 0, if_neg (by omega), if_neg (by omega), removeSlot,
            if_neg (by omega)]
        by_cases hk : 1 ≤ k
        · have hstB0some : shiftBackups (removeSlot (invState c n k) n)
              (n - 1) 0 = some (c (k - 1)) := by
            rw [hstB0, invState, if_pos rfl, if_pos hk]
          rw [renameIfExists, hstB0some]
          dsimp only
          by_cases hj1 : j = 1
          · subst hj1
            rw [if_pos rfl, invState, if_neg (by omega),
              if_pos (by omega)]
            have : k + 1 - 1 - 1 = k - 1 := by omega
            rw [this]
          · rw [if_neg hj1, if_neg hj0, hspec j]
            split_ifs with h1 h2
            · rw [removeSlot, if_neg (by omega), invState,
                if_neg (by omega)]
              rw [invState, if_neg hj0]
              by_cases hc : 1 ≤ j - 1 ∧ j - 1 ≤ min (k - 1) n
              · rw [if_pos hc, if_pos (by omega)]
                have : k - 1 - (j - 1) = k + 1 - 1 - j := by omega
                rw [this]
              · rw [if_neg hc, if_neg (by omega)]
            · omega
            · rw [removeSlot, if_neg (by omega), invState,
                if_neg hj0]
              rw [invState, if_neg hj0]
              rw [if_neg (by omega), if_neg (by omega)]
        · have hk0 : k = 0 := by omega
          subst hk0
          have hstB0none : shiftBackups (removeSlot (invState c n 0) n)
              (n - 1) 0 = none := by
            rw [hstB0, invState_zero]
          rw [renameIfExists, hstB0none]
          dsimp only
          have hA : ∀ x, removeSlot (invState c n 0) n x = none := by
            intro x
            rw [removeSlot]
            split_ifs with h
            · rfl
            · rw [invState_zero]
          rw [hspec j]
          have hR : invState c n (0 + 1) j = none := by
            rw [invState, if_neg hj0,
              if_neg (show ¬ (1 ≤ j ∧ j ≤ min (0 + 1 - 1) n) by omega)]
          rw [hR]
          split_ifs with h1 h2
          · rw [hA]
          · rfl
          · rw [hA]
    · rw [if_neg hn]
      have hn0 : n = 0 := by omega
      subst hn0
      rw [setSlot]
      by_cases hj0 : j = 0
      · subst hj0
        rw [if_pos rfl, invState]
        simp
      · rw [if_neg hj0]
        rw [invState, if_neg hj0, if_neg (by omega)]
        rw [invState, if_neg hj0, if_neg (by omega)]

/-- Claim C6: starting from no files, after `k` writes with backup depth
`n` the set of existing backups is exactly the range 1 … min (k−1) n:
backup `i` (for `i ≥ 1`) exists precisely when `i ≤ min (k−1) n`; in
particular backup `n+1` never exists, so at most `n` backups are
retained, for every depth and every number of writes. -/
theorem backup_rotation_bound (c : Nat → List Nat) (n k i : Nat)
    (hi : 1 ≤ i) :
    ((writeSeq c n k i).isSome ↔ i ≤ min (k - 1) n)
    ∧ writeSeq c n k (n + 1) = none := by
  constructor
  · rw [writeSeq_eq, invState, if_neg (by omega)]
    by_cases hc : 1 ≤ i ∧ i ≤ min (k - 1) n
    · rw [if_pos hc]
      simp [hc.2]
    · rw [if_neg hc]
      simp
      omega
  · rw [writeSeq_eq, invState, if_neg (by omega), if_neg (by omega)]

/-- Witness for the rotation bound: with depth 2, after three writes
backup 1 exists and backup 3 does not. -/
theorem backup_rotation_bound_check :
    ((writeSeq (fun j => [j]) 2 3 1).isSome ↔ 1 ≤ min (3 - 1) 2)
    ∧ writeSeq (fun j => [j]) 2 3 (2 + 1) = none :=
  backup_rotation_bound (fun j => [j]) 2 3 1 (by decide)

/-- A session-cache file as the `load` function of
session_management/session.rs observes it: absent; present but
unreadable (`fs::read` fails); present but not parseable as a
`SessionEnvelope` (ron parse error); or a parsed envelope carrying the
absolute expiry and the payload. -/
inductive SessFile (D : Type) where
  | absent
  | unreadable
  | corrupt
  | envelope (expires_at_unix : Nat) (data : D)
deriving DecidableEq, Repr

/-- `load` from session_management/session.rs: a missing file is `none`;
a read failure propagates as an error (the `?` on `fs::read`); a file
that fails to parse is deleted and reported as `none` (self-healing); an
envelope whose expiry has been reached is deleted and reported as
`none`; otherwise the payload is returned and the file left in place.
The second component is the file state afterwards. -/
def Session.load {D : Type} (f : SessFile D) (now : Nat) :
    Except VErr (Option D) × SessFile D :=
  match f with
  | .absent => (.ok none, .absent)
  | .unreadable => (.error .ioError, .unreadable)
  | .corrupt => (.ok none, .absent)
  | .envelope e d =>
      if e ≤ now then (.ok none, .absent)
      else (.ok (some d), .envelope e d)

/-- Claim C7: the session-cache load returns none for a missing file;
deletes the file and returns none when it fails to parse; deletes the
file and returns none once the current time has reached the expiry; and
otherwise returns the stored record with the file left in place. -/
theorem session_load_spec {D : Type} (now e : Nat) (d : D) :
    Session.load (D := D) .absent now = (.ok none, .absent)
    ∧ Session.load (D := D) .corrupt now = (.ok none, .absent)
    ∧ (e ≤ now → Session.load (.envelope e d) now = (.ok none, .absent))
    ∧ (now < e → Session.load (.envelope e d) now =
        (.ok (some d), .envelope e d)) := by
  refine ⟨rfl, rfl, ?_, ?_⟩
  · intro h
    rw [Session.load, if_pos h]
  · intro h
    rw [Session.load, if_neg (by omega)]

/-- Witness for the session-load theorem: an expired envelope is dropped
and deleted; a live one is returned with the file kept. -/
theorem session_load_spec_check :
    Session.load (D := Nat) (.envelope 5 42) 9 = (.ok none, .absent)
    ∧ Session.load (D := Nat) (.envelope 5 42) 3 =
        (.ok (some 42), .envelope 5 42) :=
  ⟨(session_load_spec 9 5 42).2.2.1 (by decide),
    (session_load_spec 3 5 42).2.2.2 (by decide)⟩

/-- `DerivedKeyStored` from session_management/resolver.rs.  The
fingerprint hex string is represented by the fingerprinted bytes (the
digest is ideal, hence injective); `key_b64` holds the base64-decoded
bytes of the stored key, or `none` when the stored text is not valid
base64 (the `decode` failure case). -/
structure DerivedKeyStored where
  header_fingerprint_hex : List Nat
  key_b64 : Option (List Nat)
deriving DecidableEq, Repr

/-- `header_fingerprint_excluding_nonce` from core/crypto.rs: a SHA-256
digest over magic, version, kdf id, aead id, the three parameters and
the salt — the nonce excluded.  The external hash is modelled ideally as
the hashed message itself, an injective digest. -/
def header_fingerprint_excluding_nonce (hdr : KeviHeader) : List Nat :=
  headerMagic ++ le16 hdr.version ++ [hdr.kdf_id, hdr.aead_id] ++
    le32 hdr.m_cost_kib ++ le32 hdr.t_cost ++ le32 hdr.p_lanes ++ hdr.salt

/-- The raw 32 bytes that `derive_key_argon2id` returns (its Rust type
is `[u8; 32]`), for the resolver-level claims where the byte length
matters.  The external KDF is modelled as an ideal digest of its inputs
folded to exactly 32 bytes. -/
def derive_key_bytes32 (password : String) (salt : List Nat)
    (m t p : Nat) : List Nat :=
  ((password.data.map Char.toNat ++ salt ++ le32 m ++ le32 t ++
      le32 p).map (fun b => b % 256) ++ List.replicate 32 0).take 32

theorem derive_key_bytes32_length (password : String) (salt : List Nat)
    (m t p : Nat) :
    (derive_key_bytes32 password salt m t p).length = 32 := by
  rw [derive_key_bytes32]
  rw [List.length_take]
  simp [le32]
  omega

/-- The derivation path shared by the cache-miss branches of
`CachedKeyResolver::resolve_for_header`: derive from the passphrase
under the header parameters and salt, then write the cache with the
header fingerprint and the TTL.  `writeOk` models whether the atomic
cache write succeeds; its failure propagates (the `?` on `save`). -/
def resolve_derive_fallback (hdr : KeviHeader)
    (c : SessFile DerivedKeyStored) (now ttl : Nat) (pw : String)
    (writeOk : Bool) :
    Except VErr (List Nat) × SessFile DerivedKeyStored :=
  if 8 ≤ hdr.m_cost_kib ∧ 1 ≤ hdr.t_cost ∧ 1 ≤ hdr.p_lanes then
    if writeOk then
      (.ok (derive_key_bytes32 pw hdr.salt hdr.m_cost_kib hdr.t_cost
          hdr.p_lanes),
        .envelope (now + ttl) ⟨header_fingerprint_excluding_nonce hdr,
          some (derive_key_bytes32 pw hdr.salt hdr.m_cost_kib hdr.t_cost
            hdr.p_lanes)⟩)
    else (.error .ioError, c)
  else (.error .invalidParams, c)

/-- `CachedKeyResolver::resolve_for_header` from
session_management/resolver.rs: load the cache (a load error propagates
through the `?`); on a parsed entry whose fingerprint matches the header
and whose key decodes to at least 32 bytes, return its first 32 bytes
without touching the passphrase; on any other outcome fall through to
passphrase derivation and refresh the cache. -/
def CachedKeyResolver.resolve_for_header (hdr : KeviHeader)
    (cache : SessFile DerivedKeyStored) (now ttl : Nat) (pw : String)
    (writeOk : Bool) :
    Except VErr (List Nat) × SessFile DerivedKeyStored :=
  match Session.load cache now with
  | (.error e, c2) => (.error e, c2)
  | (.ok osess, c2) =>
    match osess with
    | some sess =>
      if sess.header_fingerprint_hex =
          header_fingerprint_excluding_nonce hdr then
        match sess.key_b64 with
        | some vec =>
          if 32 ≤ vec.length then (.ok (vec.take 32), c2)
          else resolve_derive_fallback hdr c2 now ttl pw writeOk
        | none => resolve_derive_fallback hdr c2 now ttl pw writeOk
      else resolve_derive_fallback hdr c2 now ttl pw writeOk
    | none => resolve_derive_fallback hdr c2 now ttl pw writeOk

/-- `CachedKeyResolver::resolve_for_new_vault` from
session_management/resolver.rs: derive from the passphrase under the
given parameters and salt, cache the key under the fingerprint of a
synthetic header with a zero nonce, and return the key; a cache-write
failure propagates. -/
def CachedKeyResolver.resolve_for_new_vault (m t p : Nat)
    (salt : List Nat) (c : SessFile DerivedKeyStored) (now ttl : Nat)
    (pw : String) (writeOk : Bool) :
    Except VErr (List Nat) × SessFile DerivedKeyStored :=
  if 8 ≤ m ∧ 1 ≤ t ∧ 1 ≤ p then
    if writeOk then
      (.ok (derive_key_bytes32 pw salt m t p),
        .envelope (now + ttl)
          ⟨header_fingerprint_excluding_nonce
              ⟨1, 2, 1, m, t, p, salt, List.replicate 12 0⟩,
            some (derive_key_bytes32 pw salt m t p)⟩)
    else (.error .ioError, c)
  else (.error .invalidParams, c)

/-- `BypassKeyResolver::resolve_for_header` from
session_management/resolver.rs: always derive from the passphrase; the
cache is neither read nor written. -/
def BypassKeyResolver.resolve_for_header (hdr : KeviHeader)
    (pw : String) : Except VErr (List Nat) :=
  if 8 ≤ hdr.m_cost_kib ∧ 1 ≤ hdr.t_cost ∧ 1 ≤ hdr.p_lanes then
    .ok (derive_key_bytes32 pw hdr.salt hdr.m_cost_kib hdr.t_cost
      hdr.p_lanes)
  else .error .invalidParams

/-- `BypassKeyResolver::resolve_for_new_vault` from
session_management/resolver.rs: derive from the passphrase under the
given parameters and salt; no cache interaction. -/
def BypassKeyResolver.resolve_for_new_vault (m t p : Nat)
    (salt : List Nat) (pw : String) : Except VErr (List Nat) :=
  if 8 ≤ m ∧ 1 ≤ t ∧ 1 ≤ p then
    .ok (derive_key_bytes32 pw salt m t p)
  else .error .invalidParams

def hdrSample : KeviHeader :=
  ⟨1, 2, 1, 65536, 3, 1, List.replicate 16 2, List.replicate 12 3⟩

/-- Counterexample to claim C8 as stated: with an existing but
unreadable cache file, `resolve_for_header` propagates the read error to
the caller instead of falling back to passphrase derivation, so not
every cache failure is absorbed. -/
theorem resolve_for_header_unreadable_errors :
    CachedKeyResolver.resolve_for_header hdrSample .unreadable 0 900
      ("pw") true = (.error .ioError, .unreadable) := rfl

theorem resolve_derive_fallback_ok (hdr : KeviHeader)
    (c2 : SessFile DerivedKeyStored) (now ttl : Nat) (pw : String)
    (hvalid : 8 ≤ hdr.m_cost_kib ∧ 1 ≤ hdr.t_cost ∧ 1 ≤ hdr.p_lanes) :
    resolve_derive_fallback hdr c2 now ttl pw true =
      (.ok (derive_key_bytes32 pw hdr.salt hdr.m_cost_kib hdr.t_cost
          hdr.p_lanes),
        .envelope (now + ttl) ⟨header_fingerprint_excluding_nonce hdr,
          some (derive_key_bytes32 pw hdr.salt hdr.m_cost_kib hdr.t_cost
            hdr.p_lanes)⟩) := by
  rw [resolve_derive_fallback, if_pos hvalid, if_pos rfl]

/-- Reduction of `resolve_for_header` on a missing cache file. -/
theorem resolve_for_header_absent (hdr : KeviHeader) (now ttl : Nat)
    (pw : String) (w : Bool) :
    CachedKeyResolver.resolve_for_header hdr .absent now ttl pw w =
      resolve_derive_fallback hdr .absent now ttl pw w := rfl

/-- Reduction of `resolve_for_header` on a corrupt cache file: the file
is deleted by the load and derivation proceeds. -/
theorem resolve_for_header_corrupt (hdr : KeviHeader) (now ttl : Nat)
    (pw : String) (w : Bool) :
    CachedKeyResolver.resolve_for_header hdr .corrupt now ttl pw w =
      resolve_derive_fallback hdr .absent now ttl pw w := rfl

/-- Reduction of `resolve_for_header` on an expired cache entry. -/
theorem resolve_for_header_expired (hdr : KeviHeader) (e : Nat)
    (d : DerivedKeyStored) (now ttl : Nat) (pw : String) (w : Bool)
    (he : e ≤ now) :
    CachedKeyResolver.resolve_for_header hdr (.envelope e d) now ttl pw
      w = resolve_derive_fallback hdr .absent now ttl pw w := by
  rw [CachedKeyResolver.resolve_for_header, Session.load, if_pos he]

/-- Reduction of `resolve_for_header` on a live cache entry: a matching
fingerprint with a decodable key of at least 32 bytes is returned
truncated to 32 bytes; every other outcome derives afresh. -/
theorem resolve_for_header_live (hdr : KeviHeader) (e : Nat)
    (d : DerivedKeyStored) (now ttl : Nat) (pw : String) (w : Bool)
    (he : now < e) :
    CachedKeyResolver.resolve_for_header hdr (.envelope e d) now ttl pw
      w =
      if d.header_fingerprint_hex =
          header_fingerprint_excluding_nonce hdr then
        match d.key_b64 with
        | some vec =>
          if 32 ≤ vec.length then (.ok (vec.take 32), .envelope e d)
          else resolve_derive_fallback hdr (.envelope e d) now ttl pw w
        | none => resolve_derive_fallback hdr (.envelope e d) now ttl pw
            w
      else resolve_derive_fallback hdr (.envelope e d) now ttl pw w := by
  rw [CachedKeyResolver.resolve_for_header, Session.load,
    if_neg (by omega)]

/-- Amended claim C8: a missing cache file, a corrupt cache file, an
expired entry, and a live entry that mismatches the fingerprint or whose
key fails to decode or decodes too short all degrade silently to
passphrase derivation — with valid header parameters and a succeeding
cache write the resolver returns a key for every such cache state.  (An
unreadable cache file, and a failing cache write after derivation,
propagate errors instead: see the counterexample.) -/
theorem resolve_for_header_fallback (hdr : KeviHeader)
    (c : SessFile DerivedKeyStored) (now ttl : Nat) (pw : String)
    (hvalid : 8 ≤ hdr.m_cost_kib ∧ 1 ≤ hdr.t_cost ∧ 1 ≤ hdr.p_lanes)
    (hc : c ≠ .unreadable) :
    ∃ k c2, CachedKeyResolver.resolve_for_header hdr c now ttl pw true =
      (.ok k, c2) := by
  cases c with
  | unreadable => exact absurd rfl hc
  | absent =>
    rw [resolve_for_header_absent]
    exact ⟨_, _, resolve_derive_fallback_ok hdr .absent now ttl pw
      hvalid⟩
  | corrupt =>
    rw [resolve_for_header_corrupt]
    exact ⟨_, _, resolve_derive_fallback_ok hdr .absent now ttl pw
      hvalid⟩
  | envelope e d =>
    by_cases he : e ≤ now
    · rw [resolve_for_header_expired hdr e d now ttl pw true he]
      exact ⟨_, _, resolve_derive_fallback_ok hdr .absent now ttl pw
        hvalid⟩
    · rw [resolve_for_header_live hdr e d now ttl pw true (by omega)]
      by_cases hfp : d.header_fingerprint_hex =
          header_fingerprint_excluding_nonce hdr
      · rw [if_pos hfp]
        cases hkb : d.key_b64 with
        | none =>
          exact ⟨_, _, resolve_derive_fallback_ok hdr _ now ttl pw
            hvalid⟩
        | some vec =>
          dsimp only
          by_cases hlen : 32 ≤ vec.length
          · rw [if_pos hlen]
            exact ⟨vec.take 32, .envelope e d, rfl⟩
          · rw [if_neg hlen]
            exact ⟨_, _, resolve_derive_fallback_ok hdr _ now ttl pw
              hvalid⟩
      · rw [if_neg hfp]
        exact ⟨_, _, resolve_derive_fallback_ok hdr _ now ttl pw hvalid⟩

/-- Witness for the amended resolver theorem: a corrupt cache still
yields a key. -/
theorem resolve_for_header_fallback_check :
    ∃ k c2, CachedKeyResolver.resolve_for_header hdrSample .corrupt 0
      900 ("pw") true = (.ok k, c2) :=
  resolve_for_header_fallback hdrSample .corrupt 0 900 ("pw")
    (by decide) (by decide)

theorem resolve_derive_fallback_len (hdr : KeviHeader)
    (c : SessFile DerivedKeyStored) (now ttl : Nat) (pw : String)
    (w : Bool) (k : List Nat) (c2 : SessFile DerivedKeyStored)
    (h : resolve_derive_fallback hdr c now ttl pw w = (.ok k, c2)) :
    k.length = 32 := by
  rw [resolve_derive_fallback] at h
  split_ifs at h
  · simp only [Prod.mk.injEq] at h
    rw [← Except.ok.inj h.1]
    exact derive_key_bytes32_length pw hdr.salt _ _ _
  · simp at h
  · simp at h

/-- Claim C10: every key the resolvers hand back is exactly 32 bytes: a
cached entry decoding to at least 32 bytes is truncated to its first 32
bytes and returned, one decoding shorter is treated as a miss and the
key is derived instead, and every successful result of either resolver
operation, cached or bypass, has length exactly 32 — so the unchecked
32-byte copies in the vault service never read out of bounds. -/
theorem derived_keys_are_32_bytes :
    (∀ (hdr : KeviHeader) (c : SessFile DerivedKeyStored)
        (now ttl : Nat) (pw : String) (w : Bool) (k : List Nat)
        (c2 : SessFile DerivedKeyStored),
      CachedKeyResolver.resolve_for_header hdr c now ttl pw w =
        (.ok k, c2) → k.length = 32)
    ∧ (∀ (m t p : Nat) (salt : List Nat) (c : SessFile DerivedKeyStored)
        (now ttl : Nat) (pw : String) (w : Bool) (k : List Nat)
        (c2 : SessFile DerivedKeyStored),
      CachedKeyResolver.resolve_for_new_vault m t p salt c now ttl pw w =
        (.ok k, c2) → k.length = 32)
    ∧ (∀ (hdr : KeviHeader) (pw : String) (k : List Nat),
      BypassKeyResolver.resolve_for_header hdr pw = .ok k →
        k.length = 32)
    ∧ (∀ (m t p : Nat) (salt : List Nat) (pw : String) (k : List Nat),
      BypassKeyResolver.resolve_for_new_vault m t p salt pw = .ok k →
        k.length = 32)
    ∧ (∀ (hdr : KeviHeader) (e : Nat) (d : DerivedKeyStored)
        (now ttl : Nat) (pw : String) (w : Bool) (vec : List Nat),
      now < e →
      d.header_fingerprint_hex = header_fingerprint_excluding_nonce hdr →
      d.key_b64 = some vec → 32 ≤ vec.length →
      CachedKeyResolver.resolve_for_header hdr (.envelope e d) now ttl
        pw w = (.ok (vec.take 32), .envelope e d))
    ∧ (∀ (hdr : KeviHeader) (e : Nat) (d : DerivedKeyStored)
        (now ttl : Nat) (pw : String) (vec : List Nat),
      now < e →
      d.header_fingerprint_hex = header_fingerprint_excluding_nonce hdr →
      d.key_b64 = some vec → vec.length < 32 →
      (8 ≤ hdr.m_cost_kib ∧ 1 ≤ hdr.t_cost ∧ 1 ≤ hdr.p_lanes) →
      CachedKeyResolver.resolve_for_header hdr (.envelope e d) now ttl
        pw true =
        (.ok (derive_key_bytes32 pw hdr.salt hdr.m_cost_kib hdr.t_cost
            hdr.p_lanes),
          .envelope (now + ttl) ⟨header_fingerprint_excluding_nonce hdr,
            some (derive_key_bytes32 pw hdr.salt hdr.m_cost_kib
              hdr.t_cost hdr.p_lanes)⟩)) := by
  have hlive : ∀ (hdr : KeviHeader) (e : Nat) (d : DerivedKeyStored)
      (now ttl : Nat) (pw : String) (w : Bool) (k : List Nat)
      (c2 : SessFile DerivedKeyStored), now < e →
      CachedKeyResolver.resolve_for_header hdr (.envelope e d) now ttl
        pw w = (.ok k, c2) → k.length = 32 := by
    intro hdr e d now ttl pw w k c2 he h
    rw [resolve_for_header_live hdr e d now ttl pw w he] at h
    by_cases hfp : d.header_fingerprint_hex =
        header_fingerprint_excluding_nonce hdr
    · rw [if_pos hfp] at h
      cases hkb : d.key_b64 with
      | none =>
        rw [hkb] at h
        exact resolve_derive_fallback_len hdr _ now ttl pw w k c2 h
      | some vec =>
        rw [hkb] at h
        dsimp only at h
        by_cases hlen : 32 ≤ vec.length
        · rw [if_pos hlen] at h
          simp only [Prod.mk.injEq] at h
          rw [← Except.ok.inj h.1]
          rw [List.length_take]
          omega
        · rw [if_neg hlen] at h
          exact resolve_derive_fallback_len hdr _ now ttl pw w k c2 h
    · rw [if_neg hfp] at h
      exact resolve_derive_fallback_len hdr _ now ttl pw w k c2 h
  refine ⟨?_, ?_, ?_, ?_, ?_, ?_⟩
  · intro hdr c now ttl pw w k c2 h
    cases c with
    | unreadable => simp [CachedKeyResolver.resolve_for_header,
        Session.load] at h
    | absent =>
      rw [resolve_for_header_absent] at h
      exact resolve_derive_fallback_len hdr _ now ttl pw w k c2 h
    | corrupt =>
      rw [resolve_for_header_corrupt] at h
      exact resolve_derive_fallback_len hdr _ now ttl pw w k c2 h
    | envelope e d =>
      by_cases he : e ≤ now
      · rw [resolve_for_header_expired hdr e d now ttl pw w he] at h
        exact resolve_derive_fallback_len hdr _ now ttl pw w k c2 h
      · exact hlive hdr e d now ttl pw w k c2 (by omega) h
  · intro m t p salt c now ttl pw w k c2 h
    rw [CachedKeyResolver.resolve_for_new_vault] at h
    split_ifs at h
    · simp only [Prod.mk.injEq] at h
      rw [← Except.ok.inj h.1]
      exact derive_key_bytes32_length pw salt m t p
    · simp at h
    · simp at h
  · intro hdr pw k h
    rw [BypassKeyResolver.resolve_for_header] at h
    split_ifs at h
    rw [← Except.ok.inj h]
    exact derive_key_bytes32_length pw hdr.salt _ _ _
  · intro m t p salt pw k h
    rw [BypassKeyResolver.resolve_for_new_vault] at h
    split_ifs at h
    rw [← Except.ok.inj h]
    exact derive_key_bytes32_length pw salt m t p
  · intro hdr e d now ttl pw w vec he hfp hkb hlen
    rw [resolve_for_header_live hdr e d now ttl pw w he, if_pos hfp,
      hkb]
    dsimp only
    rw [if_pos hlen]
  · intro hdr e d now ttl pw vec he hfp hkb hlen hvalid
    rw [resolve_for_header_live hdr e d now ttl pw true he, if_pos hfp,
      hkb]
    dsimp only
    rw [if_neg (by omega)]
    exact resolve_derive_fallback_ok hdr _ now ttl pw hvalid

/-- Witness for the key-length theorem: the bypass resolver at a
concrete header returns a 32-byte key. -/
theorem derived_keys_are_32_bytes_check :
    (derive_key_bytes32 ("pw") (List.replicate 16 2) 65536 3 1).length =
      32 :=
  derived_keys_are_32_bytes.2.2.1 hdrSample ("pw")
    (derive_key_bytes32 ("pw") (List.replicate 16 2) 65536 3 1)
    (by decide)
